import Mathlib

/-!
# Verification of the brpc bidirectional-gRPC tunnel core

Shallow embedding of the core of the `brpc` repository (identity handshake,
client registry, call-context lookup, server-side negotiation/teardown,
accept aggregator, client-side close), with theorems settling the spec's
claims about it.

Machine integers do not overflow in any of the modelled code paths; bytes are
modelled as `Nat`, identities (`uuid.UUID`, a `[16]byte`) as `List Nat` of
length 16.
-/


/-- Errors produced by the networking helpers.  `eof` is Go's `io.EOF`;
`shortRead n expected` is the error built by
`fmt.Errorf("read %v bytes, expected %v", n, len(id))` in `getClientID`
(the spec's name for it is `ErrShortIdentity`); `shortWrite` is the analogous
error in `sendClientID`; `acceptFailed`/`dialFailed` stand for errors returned
by `listener.Accept()` / the dialer. -/
inductive NetErr where
  | eof
  | shortRead (n expected : Nat)
  | shortWrite (n expected : Nat)
  | acceptFailed
  | dialFailed
deriving DecidableEq

/-- Result of one `conn.Read(buf)` call: `n` bytes delivered, the bytes
themselves, and the error returned alongside. -/
structure ReadResult where
  n : Nat
  bytes : List Nat
  err : Option NetErr
deriving DecidableEq

/-- One `conn.Read` call against a stream whose sender has already written
everything it will ever write and closed the stream: the stream is the list of
bytes still buffered, followed by end-of-stream.  Standard reader semantics
(`bytes.Reader`, yamux/quic streams once the data has arrived): if data is
buffered, deliver up to `cap` bytes with a nil error; if the buffer is empty
and the stream is closed, return `(0, io.EOF)`. -/
def readOnce : List Nat → Nat → ReadResult
  | [], _ => ⟨0, [], some NetErr.eof⟩
  | b :: rest, cap => ⟨min cap (b :: rest).length, (b :: rest).take cap, none⟩

/-- The identity length `len(id)` for `id uuid.UUID`, i.e. 16. -/
def idLen : Nat := 16

/-- Embedding of `getClientID` (src/helpers.go lines 12-26).  The initiating
side accepts the handshake sub-stream (`accepted` is the result of
`listener.Accept()`, carrying the stream's buffered bytes on success), then
performs a single `conn.Read(id[:])`; a read error is returned as-is, a read
of `n != 16` bytes yields the short-read error, otherwise the 16 bytes read
are the identity. -/
def getClientID (accepted : Except NetErr (List Nat)) : Except NetErr (List Nat) :=
  match accepted with
  | .error e => .error e
  | .ok stream =>
    let r := readOnce stream idLen
    match r.err with
    | some e => .error e
    | none => if r.n ≠ idLen then .error (.shortRead r.n idLen) else .ok r.bytes

/-- The write half of the handshake sub-stream: the raw bytes written so far
(`sent`), and whether the writer has closed the stream. -/
structure WireConn where
  sent : List Nat
  closedWrite : Bool
deriving DecidableEq

/-- Embedding of `conn.Write(data)`: appends the raw bytes to the wire and reports the
number of bytes written (an in-memory stream write is complete and
error-free). -/
def connWrite (c : WireConn) (data : List Nat) : WireConn × Nat :=
  ({ c with sent := c.sent ++ data }, data.length)

/-- Embedding of `sendClientID` (src/helpers.go lines 28-43).  The accepting
side generates a fresh identity (`uuid.New()` is modelled by passing the
freshly generated 16-byte value `id` as an argument; its randomness is
irrelevant here), dials the handshake sub-stream (`dialed` is the dialer's
result), writes the raw identity bytes, checks the byte count, and — via the
deferred `conn.Close` — closes the stream on return. -/
def sendClientID (dialed : Except NetErr WireConn) (id : List Nat) :
    Except NetErr (List Nat × WireConn) :=
  match dialed with
  | .error e => .error e
  | .ok conn =>
    let w := connWrite conn id
    if w.2 ≠ id.length then .error (.shortWrite w.2 id.length)
    else .ok (id, { w.1 with closedWrite := true })

/-- A client identity (`uuid.UUID`), 16 bytes. -/
abbrev UUID := List Nat

/-- The duplicate-identity registration error: `errors.New("client already
exists")` in `clientMap.add` (the spec's name for it is
`ErrAlreadyRegistered`). -/
inductive RegErr where
  | alreadyRegistered
deriving DecidableEq

/-- Embedding of `clientMap[ClientService]` (src/server_client_map.go): a map
from identity to the constructed callback client, modelled as an association
list with at most one entry per key (maintained because `add` rejects
duplicates).  The `sync.RWMutex` only serialises the operations; each modelled
operation is one critical section. -/
structure clientMap (C : Type) where
  clients : List (UUID × C)
deriving DecidableEq

/-- Embedding of `clientMap.get` (src/server_client_map.go lines 61-66): map lookup,
returning the client and the found flag (`Option`). -/
def clientMap.get {C : Type} (m : clientMap C) (id : UUID) : Option C :=
  (m.clients.find? (fun p => p.1 == id)).map Prod.snd

/-- Embedding of `clientMap.add` (src/server_client_map.go lines 50-58, the snapshot whose
error result `Server.negotiate` consumes): if the identity is already present
return the duplicate error and leave the map untouched, otherwise insert the
entry.  Returns the post-call map and the error. -/
def clientMap.add {C : Type} (m : clientMap C) (id : UUID) (client : C) :
    clientMap C × Option RegErr :=
  if (m.get id).isSome then (m, some RegErr.alreadyRegistered)
  else (⟨(id, client) :: m.clients⟩, none)

/-- Embedding of `clientMap.remove` (src/server_client_map.go lines 55-59 of the first
snapshot / 60-64 of the second): `delete(c.clients, id)`, removing every
binding of `id` and nothing else. -/
def clientMap.remove {C : Type} (m : clientMap C) (id : UUID) : clientMap C :=
  ⟨m.clients.filter (fun p => ¬(p.1 == id))⟩

/-- Inbound gRPC call metadata (`metadata.MD`): a list of key/value pairs;
`Get key` collects the values stored under `key` (keys are already in their
canonical lowercase form here). -/
structure Metadata where
  entries : List (String × String)
deriving DecidableEq

/-- Embedding of `metadata.MD.Get`: the values recorded under a key, in order. -/
def Metadata.get (md : Metadata) (key : String) : List String :=
  (md.entries.filter (fun p => p.1 == key)).map Prod.snd

/-- The metadata key carrying the client identity
(`const metadataClientIDKey`, src/server.go line 21). -/
def metadataClientIDKey : String := "brpc-metadata-client-id"

/-- gRPC status codes used by `ClientFromContext`. -/
inductive GrpcCode where
  | invalidArgument
  | notFound
deriving DecidableEq

/-- A gRPC error status (`status.Error(code, msg)`). -/
structure GrpcStatus where
  code : GrpcCode
  msg : String
deriving DecidableEq

/-- Embedding of `Server.ClientFromContext` (src/server.go lines 164-183).
The incoming call context is modelled by what the function extracts from it:
`metadata.FromIncomingContext` yields `none` when the context carries no
metadata.  The external `uuid.Parse` of the google/uuid dependency is passed
in as `parse` (it returns `none` exactly when the text does not parse as an
identity).  The function is total, so no input makes it panic. -/
def ClientFromContext {C : Type} (parse : String → Option UUID)
    (clients : clientMap C) (ctx : Option Metadata) : Except GrpcStatus C :=
  match ctx with
  | none => .error ⟨.invalidArgument, "metadata not provided"⟩
  | some md =>
    match md.get metadataClientIDKey with
    | [] => .error ⟨.invalidArgument, "client id not provided"⟩
    | s :: _ =>
      match parse s with
      | none => .error ⟨.invalidArgument, "invalid client id"⟩
      | some id =>
        match clients.get id with
        | none => .error ⟨.notFound, "client not found"⟩
        | some client => .ok client

/-- Failure phases of `Server.negotiate`, mirroring the wrapped errors it
returns (`fmt.Errorf("...: %w", err)` with a phase name). -/
inductive NegErr where
  | creatingYamuxServer
  | sendingClientID (e : NetErr)
  | openingGrpcConn
  | creatingGrpcSession
  | openingGrpcChildConn
  | dialingClientServer
  | registeringClient (e : RegErr)
deriving DecidableEq

/-- The environment a run of `Server.negotiate` executes in: the outcome of
each external step it performs, in program order. -/
structure NegotiateEnv where
  /-- `yamux.Server(conn, nil)` succeeds. -/
  yamuxServerOk : Bool
  /-- the result of `session.Open()` inside `sendClientID(session.Open)`. -/
  sendDial : Except NetErr WireConn
  /-- `session.Open()` for the server→client gRPC connection succeeds. -/
  grpcConnOk : Bool
  /-- `yamux.Client(grpcConn, nil)` succeeds. -/
  grpcSessionOk : Bool
  /-- `grpcSession.Open()` succeeds. -/
  grpcChildConnOk : Bool
  /-- `dial(grpcChildConn, ...)` succeeds. -/
  dialOk : Bool

/-- A mutation performed on the client registry, for counting teardown
effects. -/
inductive RegOp where
  | addOp (id : UUID)
  | removeOp (id : UUID)
deriving DecidableEq

/-- Embedding of `Server.negotiate` (src/unnamed/part_005 lines 106-153; the
quic-based `Server.handler`, src/server.go lines 89-125, has the same registry
life cycle).  Runs the per-connection sequence: create the yamux session, send
the client id (`sendClientID`, which generates `id`), open the callback
sub-stream chain, dial the client's gRPC server, register the callback client
(`clients.add`), feed the session to the aggregator, wait for the session's
close signal, and return — at which point the deferred
`s.clients.remove(id)` runs.  Returns the final registry, the registry
mutations performed in order, and the error (`none` = normal teardown after
disconnect). -/
def negotiate {C : Type} (env : NegotiateEnv) (id : UUID) (client : C)
    (clients : clientMap C) : clientMap C × List RegOp × Option NegErr :=
  if ¬env.yamuxServerOk then (clients, [], some .creatingYamuxServer)
  else
    match sendClientID env.sendDial id with
    | .error e => (clients, [], some (.sendingClientID e))
    | .ok _ =>
      if ¬env.grpcConnOk then (clients, [], some .openingGrpcConn)
      else if ¬env.grpcSessionOk then (clients, [], some .creatingGrpcSession)
      else if ¬env.grpcChildConnOk then (clients, [], some .openingGrpcChildConn)
      else if ¬env.dialOk then (clients, [], some .dialingClientServer)
      else
        match clients.add id client with
        | (m1, some e) => (m1, [], some (.registeringClient e))
        | (m1, none) =>
          -- registered: `s.listener.AddListener(session)`, `<-session.CloseChan()`,
          -- then return nil; the deferred `s.clients.remove(id)` fires now.
          (m1.remove id, [.addOp id, .removeOp id], none)

/-- The state of a `ClientConn` relevant to `Close` (src/client.go): whether
the embedded gRPC server was ever started (`c.server != nil`, i.e.
`ServeClientService` was called), whether that server has been stopped, and
whether the underlying quic connection has been released. -/
structure ClientConnSt where
  serverStarted : Bool
  serverStopped : Bool
  connReleased : Bool
deriving DecidableEq

/-- Embedding of `ClientConn.Close` (src/client.go lines 96-105).  If an
embedded server exists it is stopped via `GracefulStop()` — which, per the
code's own comment, also closes `c.conn`, since the server's only listener
wraps that connection.  After that the function returns `nil`: the line
releasing the transport (`c.session.Close()`) is commented out, so when no
server was started nothing is closed at all. -/
def clientConnClose (c : ClientConnSt) : ClientConnSt × Option NetErr :=
  if c.serverStarted then
    ({ c with serverStopped := true, connReleased := true }, none)
  else
    (c, none)

/-- An error returned by an underlying source's `Close()`. -/
inductive MLErr where
  | closeFailed (code : Nat)
deriving DecidableEq

/-- An accept-source registered with the `multiListener` (a `net.Listener`):
the connections it will still yield (identified by numbers), whether it has
been closed (after which its `Accept` returns an error and its pump exits),
and the error its own `Close()` will report.  A source with no pending
connection that is not closed blocks its caller in `Accept`. -/
structure MLSource where
  pending : List Nat
  closed : Bool
  closeErr : Option MLErr
deriving DecidableEq

/-- Where a source's pump goroutine (started by `AddListener`) currently is:
blocked in `l.Accept()`, holding an accepted connection in the
`select { connChan <- conn; <-closeChan }`, or returned. -/
inductive PumpPhase where
  | accepting
  | sending (conn : Nat)
  | exited
deriving DecidableEq

/-- Where a call to `multiListener.Close` currently is: not called,
`close(closeChan)` done and blocked in `wg.Wait()`, `wg.Wait()` returned,
or returned with the aggregated close error. -/
inductive CloserPhase where
  | idle
  | signaled
  | waited
  | done (errs : List MLErr)
deriving DecidableEq

/-- State of a `multiListener` (src/helpers.go lines 76-102) together with its
pump goroutines: `sources` is the `listeners` slice (with each listener's
remaining behavior), `pumps` holds one pump state per source, `closeClosed`
says whether `closeChan` has been closed, `errBuf` is the content of the
one-slot buffered `errChan`, and `closer` is the progress of `Close()`. -/
structure MLState where
  sources : List MLSource
  pumps : List PumpPhase
  closeClosed : Bool
  errBuf : List MLErr
  closer : CloserPhase
deriving DecidableEq

/-- Embedding of `newMultiListener()` (src/helpers.go lines 95-102): no listeners, no
pumps, open `closeChan`, empty one-slot `errChan`. -/
def newMultiListener : MLState :=
  ⟨[], [], false, [], CloserPhase.idle⟩

/-- Embedding of `multierr.Append(err, e)` on an accumulated error represented as the list
of collected errors (`[]` is Go's nil error): a nil addition leaves the
accumulator, a non-nil addition is appended, never masking earlier errors. -/
def multierrAppend (acc : List MLErr) (e : Option MLErr) : List MLErr :=
  match e with
  | none => acc
  | some e => acc ++ [e]

/-- The error-aggregation loop of `multiListener.Close`
(`for _, l := range ml.listeners { err = multierr.Append(err, l.Close()) }`). -/
def closeLoop : List MLSource → List MLErr → List MLErr
  | [], acc => acc
  | s :: rest, acc => closeLoop rest (multierrAppend acc s.closeErr)

/-- Effect of `l.Close()` on the source. -/
def markClosed (s : MLSource) : MLSource :=
  { s with closed := true }

/-- Events of the multiListener and of the goroutines it owns. -/
inductive MLLabel where
  | addListener (s : MLSource)
  | pumpAccept (i : Nat)
  | pumpAcceptErr (i : Nat)
  | deliver (i : Nat) (conn : Nat)
  | pumpClose (i : Nat)
  | sigClose
  | waitDone
  | closeSources
deriving DecidableEq

/-- Small-step semantics of the `multiListener` (src/helpers.go lines
104-149).  Each rule embeds one suspension-point-to-suspension-point segment
of the Go code:
* `addListener`: `AddListener(l)` appends the listener and starts its pump
  (serialized before `Close`, as the spec requires of callers);
* `pumpAccept`: a pump's `l.Accept()` returns a connection;
* `pumpAcceptErr`: a pump's `l.Accept()` returns an error — transient or
  logged, either way the pump returns;
* `deliver`: the pump's `case ml.connChan <- conn` rendezvouses with an
  `Accept()` caller, who returns `(conn, nil)`; the pump loops back;
* `pumpClose`: the pump's `case <-ml.closeChan` fires and the pump returns;
* `sigClose`: `Close()` runs `close(ml.closeChan)` (its non-panicking case);
* `waitDone`: `wg.Wait()` returns, which requires every pump to have exited;
* `closeSources`: the close loop closes every registered source and `Close`
  returns the aggregated error. -/
inductive MLStep : MLState → MLLabel → MLState → Prop where
  | addListener (cfg : MLState) (s : MLSource) :
      cfg.closer = CloserPhase.idle →
      MLStep cfg (MLLabel.addListener s)
        { cfg with sources := cfg.sources ++ [s],
                   pumps := cfg.pumps ++ [PumpPhase.accepting] }
  | pumpAccept (cfg : MLState) (i : Nat) (src : MLSource) (c : Nat) (rest : List Nat) :
      cfg.pumps[i]? = some PumpPhase.accepting →
      cfg.sources[i]? = some src →
      src.closed = false →
      src.pending = c :: rest →
      MLStep cfg (MLLabel.pumpAccept i)
        { cfg with pumps := cfg.pumps.set i (PumpPhase.sending c),
                   sources := cfg.sources.set i { src with pending := rest } }
  | pumpAcceptErr (cfg : MLState) (i : Nat) (src : MLSource) :
      cfg.pumps[i]? = some PumpPhase.accepting →
      cfg.sources[i]? = some src →
      src.closed = true →
      MLStep cfg (MLLabel.pumpAcceptErr i)
        { cfg with pumps := cfg.pumps.set i PumpPhase.exited }
  | deliver (cfg : MLState) (i : Nat) (c : Nat) :
      cfg.pumps[i]? = some (PumpPhase.sending c) →
      MLStep cfg (MLLabel.deliver i c)
        { cfg with pumps := cfg.pumps.set i PumpPhase.accepting }
  | pumpClose (cfg : MLState) (i : Nat) (c : Nat) :
      cfg.pumps[i]? = some (PumpPhase.sending c) →
      cfg.closeClosed = true →
      MLStep cfg (MLLabel.pumpClose i)
        { cfg with pumps := cfg.pumps.set i PumpPhase.exited }
  | sigClose (cfg : MLState) :
      cfg.closer = CloserPhase.idle →
      cfg.closeClosed = false →
      MLStep cfg MLLabel.sigClose
        { cfg with closeClosed := true, closer := CloserPhase.signaled }
  | waitDone (cfg : MLState) :
      cfg.closer = CloserPhase.signaled →
      (∀ p ∈ cfg.pumps, p = PumpPhase.exited) →
      MLStep cfg MLLabel.waitDone { cfg with closer := CloserPhase.waited }
  | closeSources (cfg : MLState) :
      cfg.closer = CloserPhase.waited →
      MLStep cfg MLLabel.closeSources
        { cfg with sources := cfg.sources.map markClosed,
                   closer := CloserPhase.done (closeLoop cfg.sources []) }

/-- Finite executions: a trace of labelled steps. -/
inductive MLSteps : MLState → List MLLabel → MLState → Prop where
  | refl (cfg : MLState) : MLSteps cfg [] cfg
  | step {cfg cfg1 cfg2 : MLState} {l : MLLabel} {tr : List MLLabel} :
      MLStep cfg l cfg1 → MLSteps cfg1 tr cfg2 → MLSteps cfg (l :: tr) cfg2

/-- What one call to `multiListener.Accept` (src/helpers.go lines 130-139)
can return in a given state: its `select` chooses among the ready cases. -/
inductive AcceptOutcome where
  | conn (c : Nat)
  | chanErr (e : MLErr)
  | closedErr
deriving DecidableEq

/-- A pump holding a connection makes `case conn := <-ml.connChan` ready. -/
def sendingOutcome : PumpPhase → Option AcceptOutcome
  | PumpPhase.sending c => some (AcceptOutcome.conn c)
  | _ => none

/-- All results `Accept()` can produce in state `cfg`: a connection offered
by some pump (`(conn, nil)`), the head of the error channel (`(nil, err)`),
or — once `closeChan` is closed — `(nil, net.ErrClosed)`. -/
def acceptOutcomes (cfg : MLState) : List AcceptOutcome :=
  cfg.pumps.filterMap sendingOutcome ++
  (match cfg.errBuf with
   | e :: _ => [AcceptOutcome.chanErr e]
   | [] => []) ++
  (if cfg.closeClosed then [AcceptOutcome.closedErr] else [])

/-- Go's `close(ch)` applied to `ml.closeChan` — the first statement of
`multiListener.Close` (src/helpers.go line 142): closing an already-closed
channel panics. -/
inductive GoPanic where
  | closeOfClosedChannel
deriving DecidableEq

/-- The first statement of `multiListener.Close`: `close(ml.closeChan)`,
entering the wait; it panics if the channel is already closed. -/
def closeChanClose (cfg : MLState) : Except GoPanic MLState :=
  if cfg.closeClosed then Except.error GoPanic.closeOfClosedChannel
  else Except.ok { cfg with closeClosed := true, closer := CloserPhase.signaled }

/-- Structural invariant tying `Close`'s progress to the rest of the state:
past `close(closeChan)` the channel is closed; past `wg.Wait()` every pump
has exited; after `Close` returned, the reported error is the aggregation of
the sources' close errors and every source is closed. -/
def MLInv (cfg : MLState) : Prop :=
  (cfg.closer ≠ CloserPhase.idle → cfg.closeClosed = true) ∧
  ((cfg.closer = CloserPhase.waited ∨ ∃ es, cfg.closer = CloserPhase.done es) →
    ∀ p ∈ cfg.pumps, p = PumpPhase.exited) ∧
  (∀ es, cfg.closer = CloserPhase.done es →
    es = closeLoop cfg.sources [] ∧ ∀ s ∈ cfg.sources, s.closed = true)

/-- The labels of the close path. -/
def closerLabel : MLLabel → Bool
  | MLLabel.sigClose => true
  | MLLabel.waitDone => true
  | MLLabel.closeSources => true
  | _ => false

/-- The close-path labels still ahead of a given `Close` phase. -/
def closerTrace : CloserPhase → List MLLabel
  | CloserPhase.idle => [MLLabel.sigClose, MLLabel.waitDone, MLLabel.closeSources]
  | CloserPhase.signaled => [MLLabel.waitDone, MLLabel.closeSources]
  | CloserPhase.waited => [MLLabel.closeSources]
  | CloserPhase.done _ => []

/-- Concrete start state for the C5 witness: one already-closed source whose
`Close()` reports an error, its pump still in `Accept`. -/
def mlW0 : MLState :=
  ⟨[⟨[], true, some (MLErr.closeFailed 3)⟩], [PumpPhase.accepting], false, [],
    CloserPhase.idle⟩

/-- Final state of the C5 witness run. -/
def mlW1 : MLState :=
  ⟨[⟨[], true, some (MLErr.closeFailed 3)⟩], [PumpPhase.exited], true, [],
    CloserPhase.done [MLErr.closeFailed 3]⟩

/-- Trace of the C5 witness run: the pump's `Accept` errors out (its source
is closed) and the pump exits; then `Close` runs to completion. -/
def mlWtr : List MLLabel :=
  [MLLabel.pumpAcceptErr 0, MLLabel.sigClose, MLLabel.waitDone, MLLabel.closeSources]

/-- A source that never yields a connection and is never closed from
elsewhere: its pump stays blocked in `l.Accept()` forever. -/
def blockedSource : MLSource := ⟨[], false, none⟩

/-- The C6 scenario: a multiListener with one added source whose pump is
blocked in that source's `Accept`, just before `Close` is invoked. -/
def blockedCfg : MLState :=
  ⟨[blockedSource], [PumpPhase.accepting], false, [], CloserPhase.idle⟩

/-- Invariant of the C6 scenario: pump 0 stays blocked in `Accept` on the
blocked source, and `Close` can never get past `wg.Wait()`. -/
def blockedInv (cfg : MLState) : Prop :=
  cfg.pumps[0]? = some PumpPhase.accepting ∧
  cfg.sources[0]? = some blockedSource ∧
  (cfg.closer = CloserPhase.idle ∨ cfg.closer = CloserPhase.signaled)

/-- A stream holding exactly 16 bytes is read back whole by `getClientID`. -/
theorem getClientID_ok_of_len (s : List Nat) (h : s.length = 16) :
    getClientID (Except.ok s) = Except.ok s := by
  match s, h with
  | b :: rest, h =>
    have hmin : min idLen (b :: rest).length = idLen := by
      simp [idLen, h]
    have htake : (b :: rest).take idLen = b :: rest :=
      List.take_of_length_le (by simp [idLen, h])
    simp only [getClientID, readOnce, hmin, htake]
    simp

/-- C1: identity handshake round-trip.  For every 16-byte identity generated
by the accepting side, `sendClientID` succeeds, puts exactly the 16 raw
identity bytes on the wire (no length prefix, no framing) and closes the
stream for writing; and `getClientID` run by the initiating side over that
wire returns the identical identity. -/
theorem sendClientID_roundtrip (id : List Nat) (h : id.length = 16) :
    sendClientID (Except.ok ⟨[], false⟩) id = Except.ok (id, ⟨id, true⟩) ∧
    (⟨id, true⟩ : WireConn).sent.length = 16 ∧
    getClientID (Except.ok id) = Except.ok id := by
  refine ⟨?_, h, getClientID_ok_of_len id h⟩
  simp [sendClientID, connWrite]

/-- C1 witness: the round-trip evaluated at a concrete 16-byte identity. -/
theorem sendClientID_roundtrip_witness :
    (List.range 16).length = 16 ∧
    (sendClientID (Except.ok ⟨[], false⟩) (List.range 16) =
        Except.ok (List.range 16, ⟨List.range 16, true⟩) ∧
      (⟨List.range 16, true⟩ : WireConn).sent.length = 16 ∧
      getClientID (Except.ok (List.range 16)) = Except.ok (List.range 16)) :=
  ⟨by decide, sendClientID_roundtrip (List.range 16) (by decide)⟩

/-- C2 counterexample: a stream that reaches end-of-stream before any byte
was read makes `getClientID` fail with the raw `io.EOF` error returned by
`conn.Read`, not with the short-read (`ErrShortIdentity`) error the claim
names: the `err != nil` check precedes the `n != len(id)` check. -/
theorem getClientID_empty_stream_eof :
    getClientID (Except.ok []) = Except.error NetErr.eof ∧
    (Except.error NetErr.eof : Except NetErr (List Nat)) ≠
      Except.error (NetErr.shortRead 0 16) := by
  constructor
  · rfl
  · simp

/-- C2 (amended): if the handshake stream yields exactly 16 bytes followed by
end-of-stream, `getClientID` succeeds and returns those bytes; if end-of-stream
occurs after at least one byte but before 16 bytes, it fails with the
short-read error (read `n`, expected 16); if end-of-stream occurs before any
byte at all, it fails with the end-of-stream error itself. -/
theorem getClientID_read_cases (s : List Nat) :
    (s.length = 16 → getClientID (Except.ok s) = Except.ok s) ∧
    (1 ≤ s.length → s.length < 16 →
      getClientID (Except.ok s) = Except.error (NetErr.shortRead s.length 16)) ∧
    (s.length = 0 → getClientID (Except.ok s) = Except.error NetErr.eof) := by
  refine ⟨fun h => getClientID_ok_of_len s h, ?_, ?_⟩
  · intro h1 h16
    match s, h1 with
    | b :: rest, _ =>
      have hmin : min idLen (b :: rest).length = (b :: rest).length :=
        Nat.min_eq_right (Nat.le_of_lt h16)
      have hne : (b :: rest).length ≠ idLen := Nat.ne_of_lt h16
      simp only [getClientID, readOnce, hmin]
      rw [if_pos hne]
      rfl
  · intro h
    match s, h with
    | [], _ => rfl

/-- C2 witness: the three read cases evaluated at concrete streams of
lengths 16, 5 and 0. -/
theorem getClientID_read_cases_witness :
    getClientID (Except.ok (List.range 16)) = Except.ok (List.range 16) ∧
    getClientID (Except.ok [9, 9, 9, 9, 9]) = Except.error (NetErr.shortRead 5 16) ∧
    getClientID (Except.ok []) = Except.error NetErr.eof :=
  ⟨(getClientID_read_cases (List.range 16)).1 (by decide),
   (getClientID_read_cases [9, 9, 9, 9, 9]).2.1 (by decide) (by decide),
   (getClientID_read_cases []).2.2 (by decide)⟩

/-- C3: duplicate registration is rejected.  If the identity is already
present, `add` fails with the duplicate error (`ErrAlreadyRegistered`) and the
registry is returned unchanged — the existing entry is not overwritten; if the
identity is absent, `add` succeeds, the new entry is visible to `get`, and
every other identity's binding is unchanged. -/
theorem clientMap_add_duplicate_rejected {C : Type} (m : clientMap C) (id : UUID) (c : C) :
    ((m.get id).isSome → m.add id c = (m, some RegErr.alreadyRegistered)) ∧
    ((m.get id).isNone →
      (m.add id c).2 = none ∧
      (m.add id c).1.get id = some c ∧
      ∀ id2 : UUID, id2 ≠ id → (m.add id c).1.get id2 = m.get id2) := by
  constructor
  · intro h
    simp only [clientMap.add, h, if_pos]
  · intro h
    have hnone : m.get id = none := Option.isNone_iff_eq_none.mp h
    have hadd : m.add id c = (⟨(id, c) :: m.clients⟩, none) := by
      simp [clientMap.add, hnone]
    refine ⟨by rw [hadd], ?_, ?_⟩
    · rw [hadd]
      simp only [clientMap.get]
      rw [List.find?_cons_of_pos _ (by simp)]
      rfl
    · intro id2 hne
      rw [hadd]
      simp only [clientMap.get]
      rw [List.find?_cons_of_neg]
      simp only [beq_iff_eq]
      exact fun hcontra => hne hcontra.symm

/-- C3 witness: a concrete registry over `C := Nat` with one entry: the
duplicate add is rejected without change, and a fresh add succeeds while
preserving the other key. -/
theorem clientMap_add_duplicate_rejected_witness :
    ((clientMap.mk [(List.range 16, 7)]).get (List.range 16)).isSome ∧
    (clientMap.mk [(List.range 16, 7)]).add (List.range 16) 9 =
      (clientMap.mk [(List.range 16, 7)], some RegErr.alreadyRegistered) ∧
    ((clientMap.mk [(List.range 16, 7)]).get (List.replicate 16 0)).isNone ∧
    ((clientMap.mk [(List.range 16, 7)]).add (List.replicate 16 0) 9).2 = none ∧
    ((clientMap.mk [(List.range 16, 7)]).add (List.replicate 16 0) 9).1.get
      (List.replicate 16 0) = some 9 ∧
    ((clientMap.mk [(List.range 16, 7)]).add (List.replicate 16 0) 9).1.get
      (List.range 16) = (clientMap.mk [(List.range 16, 7)]).get (List.range 16) := by
  have h1 := (clientMap_add_duplicate_rejected (clientMap.mk [(List.range 16, 7)])
    (List.range 16) 9).1 (by decide)
  have h2 := (clientMap_add_duplicate_rejected (clientMap.mk [(List.range 16, 7)])
    (List.replicate 16 0) 9).2 (by decide)
  exact ⟨by decide, h1, by decide, h2.1, h2.2.1, h2.2.2 (List.range 16) (by decide)⟩

/-- C4: `ClientFromContext` fails with an InvalidArgument status when the
context carries no metadata, when the metadata has no value under the
client-id key, or when that value does not parse as an identity; it fails
with a NotFound status when the parsed identity has no registry entry;
otherwise it returns the registered callback client.  It always returns
(total function — no panic on any input). -/
theorem ClientFromContext_cases {C : Type} (parse : String → Option UUID)
    (clients : clientMap C) (ctx : Option Metadata) :
    (ctx = none →
      ClientFromContext parse clients ctx =
        .error ⟨.invalidArgument, "metadata not provided"⟩) ∧
    (∀ md, ctx = some md → md.get metadataClientIDKey = [] →
      ClientFromContext parse clients ctx =
        .error ⟨.invalidArgument, "client id not provided"⟩) ∧
    (∀ md s rest, ctx = some md → md.get metadataClientIDKey = s :: rest →
      parse s = none →
      ClientFromContext parse clients ctx =
        .error ⟨.invalidArgument, "invalid client id"⟩) ∧
    (∀ md s rest id, ctx = some md → md.get metadataClientIDKey = s :: rest →
      parse s = some id → clients.get id = none →
      ClientFromContext parse clients ctx = .error ⟨.notFound, "client not found"⟩) ∧
    (∀ md s rest id client, ctx = some md → md.get metadataClientIDKey = s :: rest →
      parse s = some id → clients.get id = some client →
      ClientFromContext parse clients ctx = .ok client) ∧
    ((∃ client, ClientFromContext parse clients ctx = .ok client) ∨
      (∃ st, ClientFromContext parse clients ctx = .error st)) := by
  refine ⟨?_, ?_, ?_, ?_, ?_, ?_⟩
  · intro h; simp [ClientFromContext, h]
  · intro md h hmd; simp [ClientFromContext, h, hmd]
  · intro md s rest h hmd hp; simp [ClientFromContext, h, hmd, hp]
  · intro md s rest id h hmd hp hg; simp [ClientFromContext, h, hmd, hp, hg]
  · intro md s rest id client h hmd hp hg; simp [ClientFromContext, h, hmd, hp, hg]
  · cases hr : ClientFromContext parse clients ctx with
    | ok client => exact Or.inl ⟨client, rfl⟩
    | error st => exact Or.inr ⟨st, rfl⟩

/-- C4 witness: the NotFound branch evaluated concretely — metadata carries a
parsable identity with no registry entry (over `C := Nat`, with a parse
function mapping the sixteen-zeros text form to the sixteen-zeros identity). -/
theorem ClientFromContext_cases_witness :
    ClientFromContext (C := Nat)
        (fun s => if s = "0" then some (List.replicate 16 0) else none)
        (clientMap.mk [])
        (some (Metadata.mk [(metadataClientIDKey, "0")])) =
      .error ⟨.notFound, "client not found"⟩ :=
  (ClientFromContext_cases
      (fun s => if s = "0" then some (List.replicate 16 0) else none)
      (clientMap.mk [])
      (some (Metadata.mk [(metadataClientIDKey, "0")]))).2.2.2.1
    (Metadata.mk [(metadataClientIDKey, "0")]) "0" [] (List.replicate 16 0)
    rfl (by decide) (by decide) (by decide)

/-- Looking up an identity after removing it finds nothing. -/
theorem clientMap_get_remove_self {C : Type} (m : clientMap C) (id : UUID) :
    (m.remove id).get id = none := by
  simp only [clientMap.remove, clientMap.get]
  rw [List.find?_eq_none.mpr]
  · rfl
  · intro p hp
    have := List.of_mem_filter hp
    simpa using this

/-- Removing one identity does not touch the binding of any other. -/
theorem clientMap_get_remove_ne {C : Type} (m : clientMap C) (id id2 : UUID)
    (h : id2 ≠ id) : (m.remove id).get id2 = m.get id2 := by
  simp only [clientMap.remove, clientMap.get]
  congr 1
  induction m.clients with
  | nil => rfl
  | cons p rest ih =>
    by_cases hp : p.1 = id
    · have h1 : (decide ¬(p.1 == id) = true) = false := by simp [hp]
      have h2 : (p.1 == id2) = false := by
        simp only [beq_eq_false_iff_ne]
        exact fun hcontra => h (hp ▸ hcontra).symm
      simp only [List.filter, h1, List.find?, h2]
      · exact ih
    · have h1 : (decide ¬(p.1 == id) = true) = true := by simp [hp]
      simp only [List.filter, h1, List.find?]
      cases hc : (p.1 == id2) with
      | true => rfl
      | false => exact ih

/-- C7: per-connection teardown.  For every registry, every environment in
which negotiation reaches registration, and every identity successfully
registered (absent beforehand), when `negotiate` returns: the identity has
been removed again — removed exactly once —, every other identity's registry
entry is unchanged, and a subsequent `ClientFromContext` carrying that
identity's text form fails with NotFound. -/
theorem negotiate_teardown_removes_id {C : Type} (env : NegotiateEnv) (id : UUID)
    (client : C) (clients : clientMap C) (parse : String → Option UUID) (s : String)
    (hyx : env.yamuxServerOk = true) (hok : ∃ w, env.sendDial = Except.ok w)
    (hg1 : env.grpcConnOk = true) (hg2 : env.grpcSessionOk = true)
    (hg3 : env.grpcChildConnOk = true) (hg4 : env.dialOk = true)
    (habsent : clients.get id = none) (hparse : parse s = some id) :
    (negotiate env id client clients).2.2 = none ∧
    (negotiate env id client clients).1.get id = none ∧
    (∀ id2, id2 ≠ id → (negotiate env id client clients).1.get id2 = clients.get id2) ∧
    (negotiate env id client clients).2.1.count (RegOp.removeOp id) = 1 ∧
    ClientFromContext parse (negotiate env id client clients).1
        (some (Metadata.mk [(metadataClientIDKey, s)])) =
      .error ⟨.notFound, "client not found"⟩ := by
  obtain ⟨w, hw⟩ := hok
  have hsend : sendClientID env.sendDial id =
      Except.ok (id, { sent := w.sent ++ id, closedWrite := true }) := by
    simp [sendClientID, hw, connWrite]
  have haddok : clients.add id client = (⟨(id, client) :: clients.clients⟩, none) := by
    simp [clientMap.add, habsent]
  have hneg : negotiate env id client clients =
      ((clientMap.mk ((id, client) :: clients.clients)).remove id,
        [RegOp.addOp id, RegOp.removeOp id], none) := by
    simp [negotiate, hyx, hsend, hg1, hg2, hg3, hg4, haddok]
  have hfin_self : (negotiate env id client clients).1.get id = none := by
    rw [hneg]
    exact clientMap_get_remove_self _ id
  refine ⟨by rw [hneg], hfin_self, ?_, by rw [hneg]; simp [List.count_cons], ?_⟩
  · intro id2 hne
    rw [hneg]
    have := clientMap_get_remove_ne (clientMap.mk ((id, client) :: clients.clients)) id id2 hne
    rw [this]
    simp only [clientMap.get]
    rw [List.find?_cons_of_neg]
    simp only [beq_iff_eq]
    exact fun hcontra => hne hcontra.symm
  · have hmd : (Metadata.mk [(metadataClientIDKey, s)]).get metadataClientIDKey
        = [s] := by
      simp [Metadata.get]
    exact (ClientFromContext_cases parse (negotiate env id client clients).1
        (some (Metadata.mk [(metadataClientIDKey, s)]))).2.2.2.1
      _ s [] id rfl hmd hparse hfin_self

/-- C7 witness: a concrete successful negotiation over `C := Nat` followed by
teardown, starting from a registry holding one other identity. -/
theorem negotiate_teardown_removes_id_witness :
    ((negotiate ⟨true, Except.ok ⟨[], false⟩, true, true, true, true⟩
        (List.replicate 16 0) 5 (clientMap.mk [(List.range 16, 7)])).2.2 = none ∧
      (negotiate ⟨true, Except.ok ⟨[], false⟩, true, true, true, true⟩
        (List.replicate 16 0) 5 (clientMap.mk [(List.range 16, 7)])).1.get
          (List.replicate 16 0) = none ∧
      (∀ id2, id2 ≠ List.replicate 16 0 →
        (negotiate ⟨true, Except.ok ⟨[], false⟩, true, true, true, true⟩
          (List.replicate 16 0) 5 (clientMap.mk [(List.range 16, 7)])).1.get id2 =
        (clientMap.mk [(List.range 16, 7)]).get id2) ∧
      (negotiate ⟨true, Except.ok ⟨[], false⟩, true, true, true, true⟩
        (List.replicate 16 0) 5
          (clientMap.mk [(List.range 16, 7)])).2.1.count
        (RegOp.removeOp (List.replicate 16 0)) = 1 ∧
      ClientFromContext (fun t => if t = "0" then some (List.replicate 16 0) else none)
          (negotiate ⟨true, Except.ok ⟨[], false⟩, true, true, true, true⟩
            (List.replicate 16 0) 5 (clientMap.mk [(List.range 16, 7)])).1
          (some (Metadata.mk [(metadataClientIDKey, "0")])) =
        .error ⟨.notFound, "client not found"⟩) :=
  negotiate_teardown_removes_id ⟨true, Except.ok ⟨[], false⟩, true, true, true, true⟩
    (List.replicate 16 0) 5 (clientMap.mk [(List.range 16, 7)])
    (fun t => if t = "0" then some (List.replicate 16 0) else none) "0"
    rfl ⟨⟨[], false⟩, rfl⟩ rfl rfl rfl rfl (by decide) (by decide)

/-- C8: evaluating `ClientConn.Close` at the failing input — a connection
whose embedded server was never started.  `Close` returns `nil` without
deadlocking, but the transport is NOT released (`connReleased` stays false),
because `c.session.Close()` is commented out; the claim (and the function's
own comment) says the transport is released.  With a started server the
transport is released only via `GracefulStop`. -/
theorem clientConnClose_leaks_transport :
    clientConnClose ⟨false, false, false⟩ = (⟨false, false, false⟩, none) ∧
    (clientConnClose ⟨false, false, false⟩).1.connReleased = false ∧
    clientConnClose ⟨true, false, false⟩ = (⟨true, true, true⟩, none) := by
  refine ⟨rfl, rfl, rfl⟩

/-- No step touches the error channel: `errChan` is allocated and selected
on, but nothing ever sends on it. -/
theorem mlStep_errBuf {cfg cfg1 : MLState} {l : MLLabel} (h : MLStep cfg l cfg1) :
    cfg1.errBuf = cfg.errBuf := by
  cases h <;> rfl

/-- The error channel keeps its content along any execution. -/
theorem mlSteps_errBuf {cfg cfg1 : MLState} {tr : List MLLabel}
    (h : MLSteps cfg tr cfg1) : cfg1.errBuf = cfg.errBuf := by
  induction h with
  | refl => rfl
  | step h1 _ ih => rw [ih, mlStep_errBuf h1]

/-- A closed `closeChan` stays closed. -/
theorem mlStep_closeClosed {cfg cfg1 : MLState} {l : MLLabel}
    (h : MLStep cfg l cfg1) (hc : cfg.closeClosed = true) : cfg1.closeClosed = true := by
  cases h <;> first | exact hc | rfl

/-- A closed `closeChan` stays closed along any execution. -/
theorem mlSteps_closeClosed {cfg cfg1 : MLState} {tr : List MLLabel}
    (h : MLSteps cfg tr cfg1) (hc : cfg.closeClosed = true) : cfg1.closeClosed = true := by
  induction h with
  | refl => exact hc
  | step h1 _ ih => exact ih (mlStep_closeClosed h1 hc)

/-- Closing the sources does not change the error each `Close()` reports. -/
theorem closeLoop_markClosed (ss : List MLSource) (acc : List MLErr) :
    closeLoop (ss.map markClosed) acc = closeLoop ss acc := by
  induction ss generalizing acc with
  | nil => rfl
  | cons s rest ih =>
    simp only [List.map, closeLoop, markClosed]
    exact ih _

/-- The invariant holds whenever `Close` has not been called yet. -/
theorem mlInv_of_idle {cfg : MLState} (h : cfg.closer = CloserPhase.idle) : MLInv cfg := by
  refine ⟨fun hne => absurd h hne, fun hcase => ?_, fun es hdone => ?_⟩
  · rcases hcase with hw | ⟨es, hd⟩
    · rw [h] at hw; cases hw
    · rw [h] at hd; cases hd
  · rw [h] at hdone; cases hdone

/-- Each step preserves the invariant. -/
theorem mlStep_inv {cfg cfg1 : MLState} {l : MLLabel}
    (h : MLStep cfg l cfg1) (hinv : MLInv cfg) : MLInv cfg1 := by
  obtain ⟨h1, h2, h3⟩ := hinv
  cases h with
  | addListener s hidle =>
    exact mlInv_of_idle hidle
  | pumpAccept i src c rest hp hs hc hpend =>
    refine ⟨h1, fun hcase => ?_, fun es hdone => ?_⟩
    · exact absurd (h2 hcase _ (List.getElem?_mem hp)) (by simp)
    · exact absurd (h2 (Or.inr ⟨es, hdone⟩) _ (List.getElem?_mem hp)) (by simp)
  | pumpAcceptErr i src hp hs hc =>
    refine ⟨h1, fun hcase => ?_, fun es hdone => ?_⟩
    · exact absurd (h2 hcase _ (List.getElem?_mem hp)) (by simp)
    · exact absurd (h2 (Or.inr ⟨es, hdone⟩) _ (List.getElem?_mem hp)) (by simp)
  | deliver i c hp =>
    refine ⟨h1, fun hcase => ?_, fun es hdone => ?_⟩
    · exact absurd (h2 hcase _ (List.getElem?_mem hp)) (by simp)
    · exact absurd (h2 (Or.inr ⟨es, hdone⟩) _ (List.getElem?_mem hp)) (by simp)
  | pumpClose i c hp hcc =>
    refine ⟨h1, fun hcase => ?_, fun es hdone => ?_⟩
    · exact absurd (h2 hcase _ (List.getElem?_mem hp)) (by simp)
    · exact absurd (h2 (Or.inr ⟨es, hdone⟩) _ (List.getElem?_mem hp)) (by simp)
  | sigClose hidle hcc =>
    refine ⟨fun _ => rfl, fun hcase => ?_, fun es hdone => ?_⟩
    · rcases hcase with hw | ⟨es, hd⟩
      · cases hw
      · cases hd
    · cases hdone
  | waitDone hsig hall =>
    refine ⟨fun _ => h1 (by rw [hsig]; exact fun hcontra => by cases hcontra),
      fun _ => hall, fun es hdone => ?_⟩
    · cases hdone
  | closeSources hwait =>
    refine ⟨fun _ => h1 (by rw [hwait]; exact fun hcontra => by cases hcontra),
      fun _ => h2 (Or.inl hwait), fun es hdone => ?_⟩
    have hes : es = closeLoop cfg.sources [] := by cases hdone; rfl
    refine ⟨?_, ?_⟩
    · rw [hes]
      exact (closeLoop_markClosed cfg.sources []).symm
    · intro s hs
      rcases List.mem_map.mp hs with ⟨t, _, ht⟩
      rw [← ht]
      rfl

/-- Executions preserve the invariant. -/
theorem mlSteps_inv {cfg cfg1 : MLState} {tr : List MLLabel}
    (h : MLSteps cfg tr cfg1) (hinv : MLInv cfg) : MLInv cfg1 := by
  induction h with
  | refl => exact hinv
  | step h1 _ ih => exact ih (mlStep_inv h1 hinv)

/-- In any execution whose final state has `Close` returned, the close-path
events occur exactly once each and in program order: signal, wait, close
sources. -/
theorem mlSteps_closer_filter {cfg cfg1 : MLState} {tr : List MLLabel}
    (h : MLSteps cfg tr cfg1) (hdone : ∃ es, cfg1.closer = CloserPhase.done es) :
    tr.filter closerLabel = closerTrace cfg.closer := by
  induction h with
  | refl =>
    obtain ⟨es, hes⟩ := hdone
    rw [hes]
    rfl
  | step h1 h2 ih =>
    specialize ih hdone
    cases h1 with
    | addListener s hidle =>
      rw [hidle]
      simpa [closerLabel, hidle] using ih
    | pumpAccept i src c rest hp hs hc hpend =>
      simpa [closerLabel] using ih
    | pumpAcceptErr i src hp hs hc =>
      simpa [closerLabel] using ih
    | deliver i c hp =>
      simpa [closerLabel] using ih
    | pumpClose i c hp hcc =>
      simpa [closerLabel] using ih
    | sigClose hidle hcc =>
      rw [hidle]
      simpa [closerLabel, closerTrace] using ih
    | waitDone hsig hall =>
      rw [hsig]
      simpa [closerLabel, closerTrace] using ih
    | closeSources hwait =>
      rw [hwait]
      simpa [closerLabel, closerTrace] using ih

/-- After `Close` has returned, no step of the multiListener or of its (all
exited) pumps is enabled any more: the state is final. -/
theorem mlStep_none_after_done {cfg : MLState} {errs : List MLErr}
    (hdone : cfg.closer = CloserPhase.done errs)
    (hex : ∀ p ∈ cfg.pumps, p = PumpPhase.exited) :
    ∀ l cfg2, ¬ MLStep cfg l cfg2 := by
  intro l cfg2 hstep
  cases hstep with
  | addListener s hidle => rw [hdone] at hidle; cases hidle
  | pumpAccept i src c rest hp hs hc hpend =>
    exact absurd (hex _ (List.getElem?_mem hp)) (by simp)
  | pumpAcceptErr i src hp hs hc =>
    exact absurd (hex _ (List.getElem?_mem hp)) (by simp)
  | deliver i c hp =>
    exact absurd (hex _ (List.getElem?_mem hp)) (by simp)
  | pumpClose i c hp hcc =>
    exact absurd (hex _ (List.getElem?_mem hp)) (by simp)
  | sigClose hidle hcc => rw [hdone] at hidle; cases hidle
  | waitDone hsig hall => rw [hdone] at hsig; cases hsig
  | closeSources hwait => rw [hdone] at hwait; cases hwait

/-- C5: the `Close` contract.  In every execution of a multiListener (from
any state with `Close` not yet called and the never-sent error channel empty)
in which `Close` returns: its steps happen in order — signal the pumps
(`close(closeChan)`), wait for every pump to exit (`wg.Wait()`), then close
every registered source — each exactly once; the returned error is the
multierr-aggregation of all the sources' close errors in order; every source
has been closed; and from then on `Accept()` can only return the closed
error `net.ErrClosed` (the state is final, so this holds for every
subsequent call). -/
theorem multiListener_close_contract {cfg cfg1 : MLState} {tr : List MLLabel}
    {errs : List MLErr}
    (hidle : cfg.closer = CloserPhase.idle) (hbuf : cfg.errBuf = [])
    (hsteps : MLSteps cfg tr cfg1) (hdone : cfg1.closer = CloserPhase.done errs) :
    tr.filter closerLabel =
      [MLLabel.sigClose, MLLabel.waitDone, MLLabel.closeSources] ∧
    (∀ p ∈ cfg1.pumps, p = PumpPhase.exited) ∧
    (∀ s ∈ cfg1.sources, s.closed = true) ∧
    errs = closeLoop cfg1.sources [] ∧
    acceptOutcomes cfg1 = [AcceptOutcome.closedErr] ∧
    (∀ l cfg2, ¬ MLStep cfg1 l cfg2) := by
  have hinv1 : MLInv cfg1 := mlSteps_inv hsteps (mlInv_of_idle hidle)
  obtain ⟨hc1, hc2, hc3⟩ := hinv1
  have hex : ∀ p ∈ cfg1.pumps, p = PumpPhase.exited := hc2 (Or.inr ⟨errs, hdone⟩)
  have hagg := hc3 errs hdone
  have hcc : cfg1.closeClosed = true := by
    refine hc1 ?_
    rw [hdone]
    exact fun hcontra => by cases hcontra
  have hbuf1 : cfg1.errBuf = [] := by rw [mlSteps_errBuf hsteps, hbuf]
  refine ⟨?_, hex, hagg.2, hagg.1, ?_, mlStep_none_after_done hdone hex⟩
  · have := mlSteps_closer_filter hsteps ⟨errs, hdone⟩
    rw [hidle] at this
    exact this
  · have hfm : cfg1.pumps.filterMap sendingOutcome = [] := by
      refine List.filterMap_eq_nil_iff.mpr ?_
      intro p hp
      rw [hex p hp]
      rfl
    simp [acceptOutcomes, hfm, hbuf1, hcc]

/-- C5 witness: the close contract evaluated on the concrete run `mlWtr`
from `mlW0` to `mlW1`. -/
theorem multiListener_close_contract_witness :
    mlWtr.filter closerLabel =
      [MLLabel.sigClose, MLLabel.waitDone, MLLabel.closeSources] ∧
    (∀ p ∈ mlW1.pumps, p = PumpPhase.exited) ∧
    (∀ s ∈ mlW1.sources, s.closed = true) ∧
    [MLErr.closeFailed 3] = closeLoop mlW1.sources [] ∧
    acceptOutcomes mlW1 = [AcceptOutcome.closedErr] ∧
    (∀ l cfg2, ¬ MLStep mlW1 l cfg2) :=
  @multiListener_close_contract mlW0 mlW1 mlWtr [MLErr.closeFailed 3] rfl rfl
    (MLSteps.step (MLStep.pumpAcceptErr mlW0 0 ⟨[], true, some (MLErr.closeFailed 3)⟩
        rfl rfl rfl)
      (MLSteps.step (MLStep.sigClose _ rfl rfl)
        (MLSteps.step (MLStep.waitDone _ rfl (by decide))
          (MLSteps.step (MLStep.closeSources _ rfl)
            (MLSteps.refl mlW1)))))
    rfl

/-- C9: from a fresh `newMultiListener`, along every execution (any
interleaving of `AddListener`, pump activity, deliveries and closing), the
error channel stays empty — no operation ever sends on it — and therefore
`Accept()` can only ever return a successfully accepted connection with a
nil error, or `net.ErrClosed`. -/
theorem multiListener_accept_outcomes {cfg : MLState} {tr : List MLLabel}
    (h : MLSteps newMultiListener tr cfg) :
    cfg.errBuf = [] ∧
    ∀ o ∈ acceptOutcomes cfg,
      (∃ c, o = AcceptOutcome.conn c) ∨ o = AcceptOutcome.closedErr := by
  have hbuf : cfg.errBuf = [] := by rw [mlSteps_errBuf h]; rfl
  refine ⟨hbuf, ?_⟩
  intro o ho
  simp only [acceptOutcomes, hbuf, List.append_nil, List.mem_append] at ho
  rcases ho with hpump | hclosed
  · rcases List.mem_filterMap.mp hpump with ⟨p, _, hp⟩
    cases p with
    | accepting => cases hp
    | sending c =>
      left
      exact ⟨c, by cases hp; rfl⟩
    | exited => cases hp
  · right
    rcases hb : cfg.closeClosed with _ | _
    · rw [hb] at hclosed; cases hclosed
    · rw [hb] at hclosed
      simpa using hclosed

/-- C9 witness: the outcome property evaluated after a concrete run — one
listener added, one connection pumped and held for delivery, then
`close(closeChan)`. -/
theorem multiListener_accept_outcomes_witness :
    (⟨[⟨[], false, none⟩], [PumpPhase.sending 4], true, [],
        CloserPhase.signaled⟩ : MLState).errBuf = [] ∧
    ∀ o ∈ acceptOutcomes ⟨[⟨[], false, none⟩], [PumpPhase.sending 4], true, [],
        CloserPhase.signaled⟩,
      (∃ c, o = AcceptOutcome.conn c) ∨ o = AcceptOutcome.closedErr :=
  multiListener_accept_outcomes
    (MLSteps.step (MLStep.addListener newMultiListener ⟨[4], false, none⟩ rfl)
      (MLSteps.step (MLStep.pumpAccept _ 0 ⟨[4], false, none⟩ 4 [] rfl rfl rfl rfl)
        (MLSteps.step (MLStep.sigClose _ rfl rfl)
          (MLSteps.refl _))))

/-- Each step preserves the C6 invariant: pump 0 has no enabled step (its
source neither yields nor errors), so `wg.Wait()`'s guard — all pumps
exited — can never be met, and the sources are only closed after that. -/
theorem blockedInv_step {cfg cfg1 : MLState} {l : MLLabel}
    (h : MLStep cfg l cfg1) (hinv : blockedInv cfg) : blockedInv cfg1 := by
  obtain ⟨hp0, hs0, hcl⟩ := hinv
  cases h with
  | addListener s hidle =>
    refine ⟨?_, ?_, Or.inl hidle⟩
    · match hl : cfg.pumps with
      | [] => rw [hl] at hp0; cases hp0
      | p :: rest =>
        rw [hl] at hp0
        simpa using hp0
    · match hl : cfg.sources with
      | [] => rw [hl] at hs0; cases hs0
      | p :: rest =>
        rw [hl] at hs0
        simpa using hs0
  | pumpAccept i src c rest hp hs hc hpend =>
    by_cases hi : i = 0
    · subst hi
      rw [hs0] at hs
      cases hs
      cases hpend
    · exact ⟨by rw [List.getElem?_set_ne hi]; exact hp0,
        by rw [List.getElem?_set_ne hi]; exact hs0, hcl⟩
  | pumpAcceptErr i src hp hs hc =>
    by_cases hi : i = 0
    · subst hi
      rw [hs0] at hs
      cases hs
      cases hc
    · exact ⟨by rw [List.getElem?_set_ne hi]; exact hp0,
        hs0, hcl⟩
  | deliver i c hp =>
    by_cases hi : i = 0
    · subst hi
      rw [hp0] at hp
      cases hp
    · exact ⟨by rw [List.getElem?_set_ne hi]; exact hp0,
        hs0, hcl⟩
  | pumpClose i c hp hcc =>
    by_cases hi : i = 0
    · subst hi
      rw [hp0] at hp
      cases hp
    · exact ⟨by rw [List.getElem?_set_ne hi]; exact hp0,
        hs0, hcl⟩
  | sigClose hidle hcc =>
    exact ⟨hp0, hs0, Or.inr rfl⟩
  | waitDone hsig hall =>
    exact absurd (hall _ (List.getElem?_mem hp0)) (by simp)
  | closeSources hwait =>
    rcases hcl with hc1 | hc1 <;> rw [hc1] at hwait <;> cases hwait

/-- Executions preserve the C6 invariant. -/
theorem blockedInv_steps {cfg cfg1 : MLState} {tr : List MLLabel}
    (h : MLSteps cfg tr cfg1) (hinv : blockedInv cfg) : blockedInv cfg1 := by
  induction h with
  | refl => exact hinv
  | step h1 _ ih => exact ih (blockedInv_step h1 hinv)

/-- C6, evaluated at the failing input: starting from a multiListener with
one added source whose pump is blocked in that source's `Accept`, NO
execution ever reaches a state in which `Close` has returned — `Close` hangs
forever in `wg.Wait()`, because the pump only consults `closeChan` after its
`Accept` returns, and the sources (whose close would unblock it) are closed
only after the wait.  This refutes the claim that `Close` returns within a
bounded time. -/
theorem multiListener_close_hangs_on_blocked_pump {cfg1 : MLState}
    {tr : List MLLabel} (h : MLSteps blockedCfg tr cfg1) :
    ∀ errs, cfg1.closer ≠ CloserPhase.done errs := by
  intro errs hdone
  have hinv : blockedInv cfg1 := blockedInv_steps h ⟨rfl, rfl, Or.inl rfl⟩
  rcases hinv.2.2 with hc | hc <;> rw [hc] at hdone <;> cases hdone

/-- C6 witness: after `Close` has executed its first step (the signal) in
the blocked scenario, it still has not returned — evaluated on the concrete
one-step trace. -/
theorem multiListener_close_hangs_on_blocked_pump_witness :
    (⟨[blockedSource], [PumpPhase.accepting], true, [],
        CloserPhase.signaled⟩ : MLState).closer ≠ CloserPhase.done [] :=
  multiListener_close_hangs_on_blocked_pump
    (MLSteps.step (MLStep.sigClose blockedCfg rfl rfl)
      (MLSteps.refl _)) []

/-- A trace containing the close signal leaves `closeChan` closed. -/
theorem mlSteps_sigClose_closed {cfg cfg1 : MLState} {tr : List MLLabel}
    (h : MLSteps cfg tr cfg1) : MLLabel.sigClose ∈ tr → cfg1.closeClosed = true := by
  induction h with
  | refl => intro hmem; cases hmem
  | step h1 h2 ih =>
    intro hmem
    rcases List.mem_cons.mp hmem with heq | hmem2
    · subst heq
      cases h1 with
      | sigClose hidle hcc => exact mlSteps_closeClosed h2 rfl
    · exact ih hmem2

/-- C10: `multiListener.Close` is not idempotent.  The first statement of
`Close` is `close(ml.closeChan)` (`closeChanClose`); a first call executes
it successfully (first conjunct: the `sigClose` step is exactly its
non-panicking case), but in every state reached after a `Close` has been
called (its signal step occurs in the trace), running that statement again
panics — close of closed channel — instead of returning an error. -/
theorem multiListener_double_close_panics :
    (∀ cfg cfg1, MLStep cfg MLLabel.sigClose cfg1 → closeChanClose cfg = Except.ok cfg1) ∧
    (∀ (cfg cfg1 : MLState) (tr : List MLLabel), MLSteps cfg tr cfg1 →
      MLLabel.sigClose ∈ tr →
      closeChanClose cfg1 = Except.error GoPanic.closeOfClosedChannel) := by
  constructor
  · intro cfg cfg1 h
    cases h with
    | sigClose hidle hcc => simp [closeChanClose, hcc]
  · intro cfg cfg1 tr h hmem
    have hc := mlSteps_sigClose_closed h hmem
    simp [closeChanClose, hc]

/-- C10 witness: a concrete first `Close` on a fresh multiListener (its
signal step), after which re-running `Close`'s first statement panics. -/
theorem multiListener_double_close_panics_witness :
    closeChanClose newMultiListener =
      Except.ok ⟨[], [], true, [], CloserPhase.signaled⟩ ∧
    closeChanClose ⟨[], [], true, [], CloserPhase.signaled⟩ =
      Except.error GoPanic.closeOfClosedChannel :=
  ⟨multiListener_double_close_panics.1 newMultiListener
      ⟨[], [], true, [], CloserPhase.signaled⟩
      (MLStep.sigClose newMultiListener rfl rfl),
    multiListener_double_close_panics.2 newMultiListener
      ⟨[], [], true, [], CloserPhase.signaled⟩ [MLLabel.sigClose]
      (MLSteps.step (MLStep.sigClose newMultiListener rfl rfl) (MLSteps.refl _))
      (by simp)⟩

